import Mathlib

/-!
Verification of the AI Peak Clip Generator backend (`backend/main.py`).

Strings are modelled as `List Char` (Python `str.startswith` is character-list
prefix testing).  The output directory is modelled as an association list from
filename to clip content, plus a flag for the separately-located downloaded
source video.  The media collaborators (`download_video`,
`detect_peak_segments`, `get_captions_for_video`, `crop_vertical`,
`burn_caption`) are repository modules that are not part of the provided
source; they are modelled from the spec as oracles that may raise.
-/

namespace PeakClip

/-- Python's `str.startswith(pat)`: `startsWith pat s` is true when `pat` is a
prefix of `s`. -/
def startsWith : List Char → List Char → Bool
  | [], _ => true
  | _ :: _, [] => false
  | a :: ps, b :: ss => if a = b then startsWith ps ss else false

/-- The temp-artifact marker `"temp_"` used in `f"temp_{job_id}_{i}.mp4"`. -/
def tempMarker : List Char := "temp_".toList

/-- Fuel-driven decimal rendering of a natural number, the model of Python's
`f"{i}"` formatting of the segment index. -/
def natCharsAux : Nat → Nat → List Char
  | 0, _ => []
  | f + 1, n =>
    if n < 10 then [Nat.digitChar n]
    else natCharsAux f (n / 10) ++ [Nat.digitChar (n % 10)]

/-- Decimal digit string of `n` (model of Python `str(i)`). -/
def natChars (n : Nat) : List Char := natCharsAux (n + 1) n

/-- The `_{i}.mp4` tail shared by both artifact name patterns. -/
def sepName (i : Nat) : List Char := '_' :: (natChars i ++ ".mp4".toList)

/-- Final artifact filename `f"{job_id}_{i}.mp4"` (main.py line 77). -/
def finalName (jid : List Char) (i : Nat) : List Char := jid ++ sepName i

/-- Temp artifact filename `f"temp_{job_id}_{i}.mp4"` (main.py line 76). -/
def tempName (jid : List Char) (i : Nat) : List Char := tempMarker ++ finalName jid i

/-- Lowercase hexadecimal digit, as emitted by Python's `str(uuid.uuid4())`. -/
def hexDigit (c : Char) : Bool := c.isDigit || (('a' ≤ c) && (c ≤ 'f'))

/-- The character allowed at position `k` of a version-4 UUID string:
a hyphen at positions 8, 13, 18, 23 and a lowercase hex digit elsewhere. -/
def uuidChar (k : Nat) (c : Char) : Bool :=
  if k = 8 || k = 13 || k = 18 || k = 23 then decide (c = '-') else hexDigit c

/-- Shape of `str(uuid.uuid4())`: 36 characters, hyphens at the four fixed
positions, lowercase hex digits elsewhere.  Job ids minted by the Dispatcher
(`job_id = str(uuid.uuid4())`, main.py line 54) have this shape. -/
def uuid4Format (jid : List Char) : Bool :=
  decide (jid.length = 36) &&
    (List.range 36).all fun k =>
      match jid[k]? with
      | some c => uuidChar k c
      | none => false

/-- The head character of `jid` is a lowercase hex digit (in particular `jid`
is nonempty and does not start with `'t'`). -/
def hexHead : List Char → Bool
  | [] => false
  | c :: _ => hexDigit c

/-- The Status Resolver's per-file matching rule (main.py line 99):
`f.startswith(job_id) and not f.startswith("temp_")`. -/
def statusFilter (jid f : List Char) : Bool :=
  startsWith jid f && !(startsWith tempMarker f)

/-- The list comprehension of main.py line 99: the files of the output
directory listing that match the job id. -/
def statusFiles (dir : List (List Char)) (jid : List Char) : List (List Char) :=
  dir.filter fun f => statusFilter jid f

/-- Response shape of `GET /status/{job_id}` (main.py lines 111-117). -/
structure StatusResponse where
  job_id : List Char
  clips : List (List Char)
  count : Nat
  message : List Char
  finished : Bool

/-- The `status` endpoint (main.py lines 96-117), as a function of the output
directory listing and the requested job id. -/
def status (dir : List (List Char)) (jid : List Char) : StatusResponse :=
  let files := statusFiles dir jid
  { job_id := jid
    clips := files.map fun f => "/outputs/".toList ++ f
    count := files.length
    message :=
      if files.length < 3 then
        "Only ".toList ++ (natChars files.length ++ " major peak moment found.".toList)
      else ("Multiple peak moments detected!").toList
    finished := decide (0 < files.length) }

/-- Response of a successful `POST /process` (main.py line 61). -/
structure ProcessResponse where
  job_id : List Char
  job_status : List Char

/-- The `process_video` endpoint (main.py lines 49-61): rejects an empty url
with HTTP 400 before minting any job id or scheduling any background task; on
a non-empty url it returns the freshly minted id together with the single
scheduled background task `(url, job_id)`.  `fresh` stands for the value of
`str(uuid.uuid4())` at this invocation. -/
def process_video (url fresh : List Char) :
    Except Nat (ProcessResponse × List (List Char × List Char)) :=
  if url = [] then Except.error 400
  else Except.ok (⟨fresh, "processing".toList⟩, [(url, fresh)])

/-- Content of a clip file in the output directory.  Modelled from the spec:
`crop_vertical` "writes a vertical-frame clip" cropped from the given start
offset with the given duration, and `burn_caption` "writes the final captioned
clip" carrying the caption text burned over that cropped content. -/
inductive Clip where
  | cropped (start dur : Nat)
  | captioned (start dur : Nat) (cap : List Char)
deriving DecidableEq

/-- The filesystem state a job interacts with: the output directory (a map
from filename to clip content) and whether the downloaded source-video copy
(which lives outside the output directory) currently exists. -/
structure FS where
  outputs : List (List Char × Clip)
  sourceExists : Bool
deriving DecidableEq

/-- Content of filename `n` in the output directory, `none` if absent. -/
def lookupFile : List (List Char × Clip) → List Char → Option Clip
  | [], _ => none
  | (k, v) :: rest, n => if k = n then some v else lookupFile rest n

/-- Writing file `n` with content `c` (an existing file is overwritten). -/
def fsWrite (fs : FS) (n : List Char) (c : Clip) : FS :=
  ⟨(n, c) :: fs.outputs.filter fun p => decide (p.1 ≠ n), fs.sourceExists⟩

/-- `os.remove` of file `n` from the output directory. -/
def fsRemove (fs : FS) (n : List Char) : FS :=
  ⟨fs.outputs.filter fun p => decide (p.1 ≠ n), fs.sourceExists⟩

/-- `os.path.exists` for a file of the output directory. -/
def fsExists (fs : FS) (n : List Char) : Bool := (lookupFile fs.outputs n).isSome

/-- A detected segment after captioning: `{"start": ..., "caption": ...}`.
Modelled from the spec: detection yields ordered segments with a start
offset, and captioning augments each with caption text, preserving order. -/
structure Seg where
  start : Nat
  caption : List Char
deriving DecidableEq

/-- Oracle behaviour of one job's collaborator calls.  Modelled from the spec:
`download_video`, `detect_peak_segments` and `get_captions_for_video` are
opaque external collaborators that either return their contracted value or
raise; `crop_vertical`/`burn_caption` either write their destination file or
raise, recorded per segment index; deletions (`os.remove`) may raise on an
existing but inaccessible path. -/
structure Env where
  download : Except Unit Unit
  detect : Except Unit (List Nat)
  captionsFor : List Nat → Except Unit (List Seg)
  cropOk : Nat → Bool
  burnOk : Nat → Bool
  removeTempRaises : Nat → Bool
  removeSourceRaises : Bool

/-- Observable side-effect events of a Runner invocation, in order. -/
inductive Ev where
  | crop (i start dur : Nat) (dst : List Char)
  | burn (i : Nat) (src dst cap : List Char)
  | removeTemp (i : Nat)
  | removeSource
deriving DecidableEq

/-- Result of running (part of) the pipeline body: the filesystem state, the
emitted events, and whether an exception escaped to the enclosing handler. -/
structure RunSt where
  fs : FS
  evs : List Ev
  exc : Bool
deriving DecidableEq

/-- The per-segment loop of `run_job` (main.py lines 75-87), starting at
segment index `i`: crop the source into `temp_{job_id}_{i}.mp4` (duration 12
from the segment's start), burn the caption into `{job_id}_{i}.mp4`, then
delete the temp file when it exists.  A raising step stops the loop with the
exception flag set. -/
def renderLoop (env : Env) (jid : List Char) : List Seg → Nat → FS → RunSt
  | [], _, fs => ⟨fs, [], false⟩
  | p :: rest, i, fs =>
    if env.cropOk i then
      let fs1 := fsWrite fs (tempName jid i) (Clip.cropped p.start 12)
      if env.burnOk i then
        let fs2 := fsWrite fs1 (finalName jid i) (Clip.captioned p.start 12 p.caption)
        let evs2 := [Ev.crop i p.start 12 (tempName jid i),
                     Ev.burn i (tempName jid i) (finalName jid i) p.caption]
        if fsExists fs2 (tempName jid i) then
          if env.removeTempRaises i then ⟨fs2, evs2, true⟩
          else
            let r := renderLoop env jid rest (i + 1) (fsRemove fs2 (tempName jid i))
            ⟨r.fs, evs2 ++ Ev.removeTemp i :: r.evs, r.exc⟩
        else
          let r := renderLoop env jid rest (i + 1) fs2
          ⟨r.fs, evs2 ++ r.evs, r.exc⟩
      else ⟨fs1, [Ev.crop i p.start 12 (tempName jid i)], true⟩
    else ⟨fs, [], true⟩

/-- The body of `run_job`'s `try` block (main.py lines 64-91): download,
detect, caption, render each segment in order, then best-effort delete the
source video copy. -/
def runJobInner (env : Env) (jid : List Char) (fs0 : FS) : RunSt :=
  match env.download with
  | Except.error _ => ⟨fs0, [], true⟩
  | Except.ok _ =>
    let fsd : FS := ⟨fs0.outputs, true⟩
    match env.detect with
    | Except.error _ => ⟨fsd, [], true⟩
    | Except.ok ss =>
      match env.captionsFor ss with
      | Except.error _ => ⟨fsd, [], true⟩
      | Except.ok cs =>
        let r := renderLoop env jid cs 0 fsd
        if r.exc then r
        else if r.fs.sourceExists then
          if env.removeSourceRaises then ⟨r.fs, r.evs, true⟩
          else ⟨⟨r.fs.outputs, false⟩, r.evs ++ [Ev.removeSource], false⟩
        else ⟨r.fs, r.evs, false⟩

/-- `run_job` (main.py lines 63-94): the `try` body wrapped in the top-level
`except Exception` handler, which swallows any escaping exception, so the
caller always just observes the resulting filesystem state and event trace. -/
def run_job (env : Env) (jid : List Char) (fs0 : FS) : FS × List Ev :=
  ⟨(runJobInner env jid fs0).fs, (runJobInner env jid fs0).evs⟩

/-- One render iteration ran to completion: crop and burn succeeded and the
temp-file deletion did not raise. -/
def iterOK (env : Env) (i : Nat) : Bool :=
  env.cropOk i && (env.burnOk i && !(env.removeTempRaises i))

/-- Index of a `burn` event (the write of a final artifact). -/
def burnIdx : Ev → Option Nat
  | Ev.burn i _ _ _ => some i
  | _ => none

theorem natCharsAux_fuel : ∀ f g n, n < f → n < g → natCharsAux f n = natCharsAux g n := by
  intro f
  induction f with
  | zero => intro g n hf _; omega
  | succ f ih =>
    intro g n hf hg
    cases g with
    | zero => omega
    | succ g =>
      by_cases h10 : n < 10
      · simp [natCharsAux, h10]
      · have hdiv : n / 10 < n := Nat.div_lt_self (by omega) (by omega)
        simp only [natCharsAux, if_neg h10]
        rw [ih g (n / 10) (by omega) (by omega)]

theorem natChars_eq (n : Nat) :
    natChars n = (if n < 10 then [] else natChars (n / 10)) ++ [Nat.digitChar (n % 10)] := by
  have hs : natChars n =
      if n < 10 then [Nat.digitChar n]
      else natCharsAux n (n / 10) ++ [Nat.digitChar (n % 10)] := rfl
  by_cases h10 : n < 10
  · rw [hs, if_pos h10, if_pos h10, List.nil_append, Nat.mod_eq_of_lt h10]
  · have hdiv : n / 10 < n := Nat.div_lt_self (by omega) (by omega)
    rw [hs, if_neg h10, if_neg h10,
      natCharsAux_fuel n (n / 10 + 1) (n / 10) (by omega) (by omega)]
    rfl

theorem natChars_ne_nil (n : Nat) : natChars n ≠ [] := by
  rw [natChars_eq]; simp

theorem digitChar_inj : ∀ a, a < 10 → ∀ b, b < 10 → Nat.digitChar a = Nat.digitChar b → a = b := by
  decide

theorem natChars_inj : ∀ m n, natChars m = natChars n → m = n := by
  intro m
  induction m using Nat.strong_induction_on with
  | _ m ih =>
    intro n h
    rw [natChars_eq m, natChars_eq n] at h
    have hlen : (if m < 10 then [] else natChars (m / 10)).length =
        (if n < 10 then [] else natChars (n / 10)).length := by
      have hl := congrArg List.length h
      simp only [List.length_append, List.length_cons, List.length_nil] at hl
      omega
    obtain ⟨hp, hsing⟩ := List.append_inj h hlen
    have hd : Nat.digitChar (m % 10) = Nat.digitChar (n % 10) := by
      simpa using hsing
    have hmod : m % 10 = n % 10 :=
      digitChar_inj _ (Nat.mod_lt _ (by omega)) _ (Nat.mod_lt _ (by omega)) hd
    by_cases hm : m < 10 <;> by_cases hn : n < 10
    · have := Nat.mod_eq_of_lt hm; have := Nat.mod_eq_of_lt hn; omega
    · rw [if_pos hm, if_neg hn] at hp
      exact absurd hp.symm (natChars_ne_nil _)
    · rw [if_neg hm, if_pos hn] at hp
      exact absurd hp (natChars_ne_nil _)
    · rw [if_neg hm, if_neg hn] at hp
      have hdiv := ih (m / 10) (Nat.div_lt_self (by omega) (by omega)) (n / 10) hp
      have h1 := Nat.div_add_mod m 10
      have h2 := Nat.div_add_mod n 10
      omega

theorem finalName_inj {jid : List Char} {i j : Nat} (h : finalName jid i = finalName jid j) :
    i = j := by
  unfold finalName sepName at h
  have h1 := List.append_cancel_left h
  simp only [List.cons.injEq, true_and] at h1
  exact natChars_inj _ _ (List.append_cancel_right h1)

theorem startsWith_append (p t : List Char) : startsWith p (p ++ t) = true := by
  induction p with
  | nil => rfl
  | cons a ps ih => simp [startsWith, ih]

theorem startsWith_temp_tempName (jid : List Char) (i : Nat) :
    startsWith tempMarker (tempName jid i) = true :=
  startsWith_append _ _

theorem hexDigit_ne_t {c : Char} (h : hexDigit c = true) : c ≠ 't' := by
  intro he; subst he; exact absurd h (by decide)

theorem tempMarker_eq : tempMarker = ['t', 'e', 'm', 'p', '_'] := rfl

theorem not_temp_of_hexHead {jid : List Char} (h : hexHead jid = true) (f : List Char) :
    startsWith tempMarker (jid ++ f) = false := by
  cases jid with
  | nil => simp [hexHead] at h
  | cons c t =>
    have hne : ¬('t' = c) := fun he => hexDigit_ne_t h he.symm
    rw [tempMarker_eq]
    simp only [List.cons_append, startsWith, if_neg hne]

theorem tempName_ne_finalName {jid : List Char} (h : hexHead jid = true) (i j : Nat) :
    tempName jid i ≠ finalName jid j := by
  intro he
  have h2 := startsWith_temp_tempName jid i
  rw [he] at h2
  unfold finalName at h2
  rw [not_temp_of_hexHead h] at h2
  exact Bool.noConfusion h2

theorem tempName_inj {jid : List Char} {i j : Nat} (h : tempName jid i = tempName jid j) :
    i = j :=
  finalName_inj (List.append_cancel_left h)

theorem statusFilter_final_self {jid : List Char} (h : hexHead jid = true) (i : Nat) :
    statusFilter jid (finalName jid i) = true := by
  have h1 : startsWith tempMarker (jid ++ sepName i) = false := not_temp_of_hexHead h _
  simp [statusFilter, finalName, startsWith_append, h1]

theorem statusFilter_of_temp {A f : List Char} (h : startsWith tempMarker f = true) :
    statusFilter A f = false := by
  simp [statusFilter, h]

theorem hexHead_of_uuid4 {jid : List Char} (h : uuid4Format jid = true) : hexHead jid = true := by
  unfold uuid4Format at h
  rw [Bool.and_eq_true] at h
  obtain ⟨h1, h2⟩ := h
  have hlen : jid.length = 36 := of_decide_eq_true h1
  cases jid with
  | nil => simp at hlen
  | cons c t =>
    have h0 := List.all_eq_true.mp h2 0 (List.mem_range.mpr (by omega))
    simp only [List.getElem?_cons_zero] at h0
    unfold uuidChar at h0
    simpa [hexHead] using h0

theorem lookupFile_filter_ne {l : List (List Char × Clip)} {n m : List Char} (h : m ≠ n) :
    lookupFile (l.filter fun p => decide (p.1 ≠ n)) m = lookupFile l m := by
  induction l with
  | nil => rfl
  | cons kv rest ih =>
    obtain ⟨k, v⟩ := kv
    simp only [List.filter_cons]
    by_cases hk : k = n
    · subst hk
      rw [if_neg (by simp), ih]
      simp only [lookupFile]
      rw [if_neg (fun hc => h hc.symm)]
    · rw [if_pos (by simpa using hk)]
      simp only [lookupFile]
      by_cases hm : k = m
      · rw [if_pos hm, if_pos hm]
      · rw [if_neg hm, if_neg hm, ih]

theorem lookupFile_filter_self {l : List (List Char × Clip)} {n : List Char} :
    lookupFile (l.filter fun p => decide (p.1 ≠ n)) n = none := by
  induction l with
  | nil => rfl
  | cons kv rest ih =>
    obtain ⟨k, v⟩ := kv
    simp only [List.filter_cons]
    by_cases hk : k = n
    · rw [if_neg (by simp [hk]), ih]
    · rw [if_pos (by simpa using hk)]
      simp only [lookupFile]
      rw [if_neg hk, ih]

theorem lookupFile_fsWrite_self (fs : FS) (n : List Char) (c : Clip) :
    lookupFile (fsWrite fs n c).outputs n = some c := by
  simp [fsWrite, lookupFile]

theorem lookupFile_fsWrite_ne {m n : List Char} (h : m ≠ n) (fs : FS) (c : Clip) :
    lookupFile (fsWrite fs n c).outputs m = lookupFile fs.outputs m := by
  simp only [fsWrite, lookupFile]
  rw [if_neg (fun hc => h hc.symm), lookupFile_filter_ne h]

theorem lookupFile_fsRemove_self (fs : FS) (n : List Char) :
    lookupFile (fsRemove fs n).outputs n = none :=
  lookupFile_filter_self

theorem lookupFile_fsRemove_ne {m n : List Char} (h : m ≠ n) (fs : FS) :
    lookupFile (fsRemove fs n).outputs m = lookupFile fs.outputs m :=
  lookupFile_filter_ne h

theorem mem_map_fst_of_lookupFile {l : List (List Char × Clip)} {n : List Char} {v : Clip}
    (h : lookupFile l n = some v) : n ∈ l.map Prod.fst := by
  induction l with
  | nil => simp [lookupFile] at h
  | cons kv rest ih =>
    obtain ⟨k, w⟩ := kv
    by_cases hk : k = n
    · subst hk
      exact List.mem_cons_self _ _
    · simp only [lookupFile, if_neg hk] at h
      exact List.mem_cons_of_mem _ (ih h)

theorem exists_temp_after {jid : List Char} (hjid : hexHead jid = true) (fs : FS) (b s : Nat)
    (c : Clip) :
    fsExists (fsWrite (fsWrite fs (tempName jid b) (Clip.cropped s 12)) (finalName jid b) c)
      (tempName jid b) = true := by
  unfold fsExists
  rw [lookupFile_fsWrite_ne (tempName_ne_finalName hjid b b), lookupFile_fsWrite_self]
  rfl

theorem renderLoop_lookup_frame (env : Env) {jid : List Char} (hjid : hexHead jid = true) :
    ∀ (cs : List Seg) (b : Nat) (fs : FS) (name : List Char),
      (∀ k, b ≤ k → name ≠ tempName jid k ∧ name ≠ finalName jid k) →
      lookupFile (renderLoop env jid cs b fs).fs.outputs name = lookupFile fs.outputs name := by
  intro cs
  induction cs with
  | nil => intro b fs name _; rfl
  | cons p rest ih =>
    intro b fs name h
    obtain ⟨ht, hf⟩ := h b (le_refl b)
    simp only [renderLoop]
    by_cases hc : env.cropOk b = true
    · rw [if_pos hc]
      by_cases hb : env.burnOk b = true
      · rw [if_pos hb, if_pos (exists_temp_after hjid fs b p.start _)]
        by_cases hr : env.removeTempRaises b = true
        · rw [if_pos hr]
          rw [lookupFile_fsWrite_ne hf, lookupFile_fsWrite_ne ht]
        · rw [if_neg hr]
          rw [ih (b + 1) _ name (fun k hk => h k (by omega)),
            lookupFile_fsRemove_ne ht, lookupFile_fsWrite_ne hf, lookupFile_fsWrite_ne ht]
      · rw [if_neg hb]
        rw [lookupFile_fsWrite_ne ht]
    · rw [if_neg hc]

theorem renderLoop_sourceExists (env : Env) (jid : List Char) :
    ∀ (cs : List Seg) (b : Nat) (fs : FS),
      (renderLoop env jid cs b fs).fs.sourceExists = fs.sourceExists := by
  intro cs
  induction cs with
  | nil => intro b fs; rfl
  | cons p rest ih =>
    intro b fs
    simp only [renderLoop]
    split
    · split
      · split
        · split
          · rfl
          · rw [ih]
            rfl
        · rw [ih]
          rfl
      · rfl
    · rfl

theorem renderLoop_lookup_final (env : Env) {jid : List Char} (hjid : hexHead jid = true) :
    ∀ (cs : List Seg) (b : Nat) (fs : FS) (j : Nat) (p : Seg),
      cs[j]? = some p →
      (∀ k, k < j → iterOK env (b + k) = true) →
      env.cropOk (b + j) = true → env.burnOk (b + j) = true →
      lookupFile (renderLoop env jid cs b fs).fs.outputs (finalName jid (b + j)) =
        some (Clip.captioned p.start 12 p.caption) := by
  intro cs
  induction cs with
  | nil => intro b fs j p hp; simp at hp
  | cons q rest ih =>
    intro b fs j p hp hpre hc hb
    cases j with
    | zero =>
      have hq : q = p := by simpa using hp
      subst hq
      simp only [Nat.add_zero] at hc hb ⊢
      simp only [renderLoop]
      rw [if_pos hc, if_pos hb, if_pos (exists_temp_after hjid fs b q.start _)]
      by_cases hr : env.removeTempRaises b = true
      · rw [if_pos hr]
        exact lookupFile_fsWrite_self _ _ _
      · rw [if_neg hr]
        have hframe : ∀ k, b + 1 ≤ k →
            finalName jid b ≠ tempName jid k ∧ finalName jid b ≠ finalName jid k := by
          intro k hk
          refine ⟨Ne.symm (tempName_ne_finalName hjid k b), fun he => ?_⟩
          have := finalName_inj he
          omega
        show lookupFile (renderLoop env jid rest (b + 1) _).fs.outputs _ = _
        rw [renderLoop_lookup_frame env hjid rest (b + 1) _ _ hframe,
          lookupFile_fsRemove_ne (Ne.symm (tempName_ne_finalName hjid b b)),
          lookupFile_fsWrite_self]
    | succ j =>
      have h0 : iterOK env b = true := by
        have := hpre 0 (by omega)
        simpa using this
      simp only [iterOK, Bool.and_eq_true] at h0
      obtain ⟨hc0, hb0, hr0⟩ := h0
      have hr0' : env.removeTempRaises b = false := by
        revert hr0; cases env.removeTempRaises b <;> simp
      simp only [renderLoop]
      rw [if_pos hc0, if_pos hb0, if_pos (exists_temp_after hjid fs b q.start _),
        if_neg (by simp [hr0'])]
      have hp' : rest[j]? = some p := by simpa using hp
      have hpre' : ∀ k, k < j → iterOK env (b + 1 + k) = true := by
        intro k hk
        have h := hpre (k + 1) (by omega)
        rwa [show b + (k + 1) = b + 1 + k from by omega] at h
      have hc' : env.cropOk (b + 1 + j) = true := by
        rwa [show b + 1 + j = b + (j + 1) from by omega]
      have hb' : env.burnOk (b + 1 + j) = true := by
        rwa [show b + 1 + j = b + (j + 1) from by omega]
      have hgoal := ih (b + 1)
        (fsRemove
          (fsWrite (fsWrite fs (tempName jid b) (Clip.cropped q.start 12)) (finalName jid b)
            (Clip.captioned q.start 12 q.caption))
          (tempName jid b)) j p hp' hpre' hc' hb'
      rwa [show b + 1 + j = b + (j + 1) from by omega] at hgoal

theorem renderLoop_lookup_final_none (env : Env) {jid : List Char} (hjid : hexHead jid = true) :
    ∀ (cs : List Seg) (b : Nat) (fs : FS) (j : Nat),
      ¬(j < cs.length ∧ (∀ k, k < j → iterOK env (b + k) = true) ∧
          env.cropOk (b + j) = true ∧ env.burnOk (b + j) = true) →
      lookupFile (renderLoop env jid cs b fs).fs.outputs (finalName jid (b + j)) =
        lookupFile fs.outputs (finalName jid (b + j)) := by
  intro cs
  induction cs with
  | nil => intro b fs j _; rfl
  | cons q rest ih =>
    intro b fs j hcond
    simp only [renderLoop]
    by_cases hc : env.cropOk b = true
    · rw [if_pos hc]
      by_cases hb : env.burnOk b = true
      · rw [if_pos hb, if_pos (exists_temp_after hjid fs b q.start _)]
        cases j with
        | zero =>
          exact absurd ⟨by simp, fun k hk => absurd hk (by omega), by simpa using hc,
            by simpa using hb⟩ hcond
        | succ j =>
          have hfne : finalName jid (b + (j + 1)) ≠ finalName jid b := fun he => by
            have := finalName_inj he; omega
          have htne : finalName jid (b + (j + 1)) ≠ tempName jid b :=
            Ne.symm (tempName_ne_finalName hjid b _)
          by_cases hr : env.removeTempRaises b = true
          · rw [if_pos hr]
            rw [lookupFile_fsWrite_ne hfne, lookupFile_fsWrite_ne htne]
          · rw [if_neg hr]
            have hr' : env.removeTempRaises b = false := by
              revert hr; cases env.removeTempRaises b <;> simp
            have hcond' : ¬(j < rest.length ∧ (∀ k, k < j → iterOK env (b + 1 + k) = true) ∧
                env.cropOk (b + 1 + j) = true ∧ env.burnOk (b + 1 + j) = true) := by
              rintro ⟨h1, h2, h3, h4⟩
              apply hcond
              refine ⟨by simp only [List.length_cons]; omega, ?_, ?_, ?_⟩
              · intro k hk
                cases k with
                | zero => simp [iterOK, hc, hb, hr']
                | succ k =>
                  have := h2 k (by omega)
                  rwa [show b + 1 + k = b + (k + 1) from by omega] at this
              · rwa [show b + 1 + j = b + (j + 1) from by omega] at h3
              · rwa [show b + 1 + j = b + (j + 1) from by omega] at h4
            have hrec := ih (b + 1)
              (fsRemove
                (fsWrite (fsWrite fs (tempName jid b) (Clip.cropped q.start 12)) (finalName jid b)
                  (Clip.captioned q.start 12 q.caption))
                (tempName jid b)) j hcond'
            rw [show b + (j + 1) = b + 1 + j from by omega]
            rw [hrec, lookupFile_fsRemove_ne (by rwa [show b + 1 + j = b + (j + 1) from by omega]),
              lookupFile_fsWrite_ne (by rwa [show b + 1 + j = b + (j + 1) from by omega]),
              lookupFile_fsWrite_ne (by rwa [show b + 1 + j = b + (j + 1) from by omega])]
      · rw [if_neg hb]
        exact lookupFile_fsWrite_ne (Ne.symm (tempName_ne_finalName hjid b (b + j))) _ _
    · rw [if_neg hc]

theorem renderLoop_success (env : Env) {jid : List Char} (hjid : hexHead jid = true) :
    ∀ (cs : List Seg) (b : Nat) (fs : FS),
      (∀ k, k < cs.length → iterOK env (b + k) = true) →
      (∀ k, lookupFile fs.outputs (tempName jid k) = none) →
      (renderLoop env jid cs b fs).exc = false ∧
        ∀ k, lookupFile (renderLoop env jid cs b fs).fs.outputs (tempName jid k) = none := by
  intro cs
  induction cs with
  | nil => intro b fs _ h0; exact ⟨rfl, h0⟩
  | cons q rest ih =>
    intro b fs hall h0
    have hit : iterOK env b = true := by simpa using hall 0 (by simp)
    simp only [iterOK, Bool.and_eq_true] at hit
    obtain ⟨hc0, hb0, hr0⟩ := hit
    have hr0' : env.removeTempRaises b = false := by
      revert hr0; cases env.removeTempRaises b <;> simp
    simp only [renderLoop]
    rw [if_pos hc0, if_pos hb0, if_pos (exists_temp_after hjid fs b q.start _),
      if_neg (by simp [hr0'])]
    have h0' : ∀ k,
        lookupFile
          (fsRemove
            (fsWrite (fsWrite fs (tempName jid b) (Clip.cropped q.start 12)) (finalName jid b)
              (Clip.captioned q.start 12 q.caption))
            (tempName jid b)).outputs (tempName jid k) = none := by
      intro k
      by_cases hk : k = b
      · subst hk
        exact lookupFile_fsRemove_self _ _
      · rw [lookupFile_fsRemove_ne (fun he => hk (tempName_inj he)),
          lookupFile_fsWrite_ne (tempName_ne_finalName hjid k b),
          lookupFile_fsWrite_ne (fun he => hk (tempName_inj he))]
        exact h0 k
    have hall' : ∀ k, k < rest.length → iterOK env (b + 1 + k) = true := by
      intro k hk
      have := hall (k + 1) (by simp only [List.length_cons]; omega)
      rwa [show b + (k + 1) = b + 1 + k from by omega] at this
    exact ih (b + 1) _ hall' h0'

theorem renderLoop_exc_of_removeRaises (env : Env) {jid : List Char} (hjid : hexHead jid = true) :
    ∀ (cs : List Seg) (b : Nat) (fs : FS) (i : Nat),
      i < cs.length →
      (∀ k, k < i → iterOK env (b + k) = true) →
      env.cropOk (b + i) = true → env.burnOk (b + i) = true →
      env.removeTempRaises (b + i) = true →
      (renderLoop env jid cs b fs).exc = true := by
  intro cs
  induction cs with
  | nil => intro b fs i hi; simp only [List.length_nil] at hi; omega
  | cons q rest ih =>
    intro b fs i hi hpre hc hb hr
    cases i with
    | zero =>
      simp only [Nat.add_zero] at hc hb hr
      simp only [renderLoop]
      rw [if_pos hc, if_pos hb, if_pos (exists_temp_after hjid fs b q.start _), if_pos hr]
    | succ i =>
      have hit : iterOK env b = true := by simpa using hpre 0 (by omega)
      simp only [iterOK, Bool.and_eq_true] at hit
      obtain ⟨hc0, hb0, hr0⟩ := hit
      have hr0' : env.removeTempRaises b = false := by
        revert hr0; cases env.removeTempRaises b <;> simp
      simp only [renderLoop]
      rw [if_pos hc0, if_pos hb0, if_pos (exists_temp_after hjid fs b q.start _),
        if_neg (by simp [hr0'])]
      exact ih (b + 1) _ i (by simp only [List.length_cons] at hi; omega)
        (fun k hk => by
          have := hpre (k + 1) (by omega)
          rwa [show b + (k + 1) = b + 1 + k from by omega] at this)
        (by rwa [show b + 1 + i = b + (i + 1) from by omega])
        (by rwa [show b + 1 + i = b + (i + 1) from by omega])
        (by rwa [show b + 1 + i = b + (i + 1) from by omega])

theorem renderLoop_trace (env : Env) {jid : List Char} (hjid : hexHead jid = true) :
    ∀ (cs : List Seg) (b : Nat) (fs : FS) (j : Nat) (p : Seg),
      cs[j]? = some p →
      (∀ k, k < j → iterOK env (b + k) = true) →
      env.cropOk (b + j) = true → env.burnOk (b + j) = true →
      ∃ pre post, (renderLoop env jid cs b fs).evs =
        pre ++ Ev.crop (b + j) p.start 12 (tempName jid (b + j)) ::
          Ev.burn (b + j) (tempName jid (b + j)) (finalName jid (b + j)) p.caption :: post := by
  intro cs
  induction cs with
  | nil => intro b fs j p hp; simp at hp
  | cons q rest ih =>
    intro b fs j p hp hpre hc hb
    cases j with
    | zero =>
      have hq : q = p := by simpa using hp
      subst hq
      simp only [Nat.add_zero] at hc hb ⊢
      simp only [renderLoop]
      rw [if_pos hc, if_pos hb, if_pos (exists_temp_after hjid fs b q.start _)]
      by_cases hr : env.removeTempRaises b = true
      · rw [if_pos hr]
        exact ⟨[], [], rfl⟩
      · rw [if_neg hr]
        exact ⟨[], Ev.removeTemp b ::
          (renderLoop env jid rest (b + 1)
            (fsRemove
              (fsWrite (fsWrite fs (tempName jid b) (Clip.cropped q.start 12)) (finalName jid b)
                (Clip.captioned q.start 12 q.caption))
              (tempName jid b))).evs, rfl⟩
    | succ j =>
      have hit : iterOK env b = true := by simpa using hpre 0 (by omega)
      simp only [iterOK, Bool.and_eq_true] at hit
      obtain ⟨hc0, hb0, hr0⟩ := hit
      have hr0' : env.removeTempRaises b = false := by
        revert hr0; cases env.removeTempRaises b <;> simp
      simp only [renderLoop]
      rw [if_pos hc0, if_pos hb0, if_pos (exists_temp_after hjid fs b q.start _),
        if_neg (by simp [hr0'])]
      have hp' : rest[j]? = some p := by simpa using hp
      have hpre' : ∀ k, k < j → iterOK env (b + 1 + k) = true := by
        intro k hk
        have := hpre (k + 1) (by omega)
        rwa [show b + (k + 1) = b + 1 + k from by omega] at this
      have hc' : env.cropOk (b + 1 + j) = true := by
        rwa [show b + 1 + j = b + (j + 1) from by omega]
      have hb' : env.burnOk (b + 1 + j) = true := by
        rwa [show b + 1 + j = b + (j + 1) from by omega]
      obtain ⟨pre, post, hev⟩ := ih (b + 1)
        (fsRemove
          (fsWrite (fsWrite fs (tempName jid b) (Clip.cropped q.start 12)) (finalName jid b)
            (Clip.captioned q.start 12 q.caption))
          (tempName jid b)) j p hp' hpre' hc' hb'
      refine ⟨Ev.crop b q.start 12 (tempName jid b) ::
        Ev.burn b (tempName jid b) (finalName jid b) q.caption :: Ev.removeTemp b :: pre,
        post, ?_⟩
      rw [show b + (j + 1) = b + 1 + j from by omega]
      show Ev.crop b q.start 12 (tempName jid b) ::
          Ev.burn b (tempName jid b) (finalName jid b) q.caption :: Ev.removeTemp b ::
            (renderLoop env jid rest (b + 1) _).evs = _
      rw [hev]
      simp

theorem renderLoop_burn_ge (env : Env) (jid : List Char) :
    ∀ (cs : List Seg) (b : Nat) (fs : FS) (x : Nat),
      x ∈ (renderLoop env jid cs b fs).evs.filterMap burnIdx → b ≤ x := by
  intro cs
  induction cs with
  | nil => intro b fs x hx; simp [renderLoop] at hx
  | cons q rest ih =>
    intro b fs x hx
    simp only [renderLoop] at hx
    split at hx
    · split at hx
      · split at hx
        · split at hx
          · simp [burnIdx] at hx
            omega
          · simp only [List.filterMap_append, List.filterMap_cons, burnIdx,
              List.filterMap_nil, List.nil_append, List.cons_append,
              List.mem_cons, List.not_mem_nil, or_false] at hx
            rcases hx with h | h
            · omega
            · have := ih (b + 1) _ x h
              omega
        · simp only [List.filterMap_append, List.filterMap_cons, burnIdx,
            List.filterMap_nil, List.nil_append, List.cons_append,
            List.mem_cons, List.not_mem_nil, or_false] at hx
          rcases hx with h | h
          · omega
          · have := ih (b + 1) _ x h
            omega
      · simp [burnIdx] at hx
    · simp at hx

theorem renderLoop_burn_sorted (env : Env) (jid : List Char) :
    ∀ (cs : List Seg) (b : Nat) (fs : FS),
      ((renderLoop env jid cs b fs).evs.filterMap burnIdx).Pairwise (· < ·) := by
  intro cs
  induction cs with
  | nil => intro b fs; simp [renderLoop]
  | cons q rest ih =>
    intro b fs
    simp only [renderLoop]
    split
    · split
      · split
        · split
          · simp [burnIdx]
          · simp only [List.filterMap_append, List.filterMap_cons, burnIdx,
              List.filterMap_nil]
            simp only [List.nil_append, List.cons_append, List.pairwise_cons]
            refine ⟨fun x hx => ?_, ih (b + 1) _⟩
            have := renderLoop_burn_ge env jid rest (b + 1) _ x hx
            omega
        · simp only [List.filterMap_append, List.filterMap_cons, burnIdx,
            List.filterMap_nil]
          simp only [List.nil_append, List.cons_append, List.pairwise_cons]
          refine ⟨fun x hx => ?_, ih (b + 1) _⟩
          have := renderLoop_burn_ge env jid rest (b + 1) _ x hx
          omega
      · simp [burnIdx]
    · simp

theorem runJobInner_dl_err {env : Env} (jid : List Char) (fs0 : FS)
    (h : env.download = Except.error ()) : runJobInner env jid fs0 = ⟨fs0, [], true⟩ := by
  simp only [runJobInner, h]

theorem runJobInner_detect_err {env : Env} (jid : List Char) (fs0 : FS)
    (hd : env.download = Except.ok ()) (h : env.detect = Except.error ()) :
    runJobInner env jid fs0 = ⟨⟨fs0.outputs, true⟩, [], true⟩ := by
  simp only [runJobInner, hd, h]

theorem runJobInner_cap_err {env : Env} {ss : List Nat} (jid : List Char) (fs0 : FS)
    (hd : env.download = Except.ok ()) (hdet : env.detect = Except.ok ss)
    (h : env.captionsFor ss = Except.error ()) :
    runJobInner env jid fs0 = ⟨⟨fs0.outputs, true⟩, [], true⟩ := by
  simp only [runJobInner, hd, hdet, h]

theorem runJobInner_outputs {env : Env} {ss : List Nat} {cs : List Seg} (jid : List Char)
    (fs0 : FS) (hd : env.download = Except.ok ()) (hdet : env.detect = Except.ok ss)
    (hcap : env.captionsFor ss = Except.ok cs) :
    (runJobInner env jid fs0).fs.outputs =
      (renderLoop env jid cs 0 ⟨fs0.outputs, true⟩).fs.outputs := by
  simp only [runJobInner, hd, hdet, hcap]
  split
  · rfl
  · split
    · split
      · rfl
      · rfl
    · rfl

theorem runJobInner_evs {env : Env} {ss : List Nat} {cs : List Seg} (jid : List Char)
    (fs0 : FS) (hd : env.download = Except.ok ()) (hdet : env.detect = Except.ok ss)
    (hcap : env.captionsFor ss = Except.ok cs) :
    ∃ tail, (runJobInner env jid fs0).evs =
        (renderLoop env jid cs 0 ⟨fs0.outputs, true⟩).evs ++ tail ∧
      tail.filterMap burnIdx = [] := by
  simp only [runJobInner, hd, hdet, hcap]
  split
  · exact ⟨[], by simp, rfl⟩
  · split
    · split
      · exact ⟨[], by simp, rfl⟩
      · exact ⟨[Ev.removeSource], rfl, rfl⟩
    · exact ⟨[], by simp, rfl⟩

/-- A concrete job id of the shape minted by the Dispatcher. -/
def jidW : List Char := "0f8fad5b-d9cb-469f-a165-70867728950e".toList

/-- An initially empty output store with no downloaded source video. -/
def fsEmpty : FS := ⟨[], false⟩

/-- Claim C1: for every job_id minted by the Dispatcher and every segment
index, the Status Resolver's filter (keep filenames starting with job_id and
not starting with the temp marker) includes every final artifact name
`{job_id}_{i}.mp4` and excludes every temp artifact name
`temp_{job_id}_{i}.mp4`; no final artifact is ever classified as temporary
and no temp artifact ever appears in query's clip list. -/
theorem claim_c1 (jid : List Char) (i : Nat) (hjid : uuid4Format jid = true) :
    statusFilter jid (finalName jid i) = true ∧
    statusFilter jid (tempName jid i) = false ∧
    ∀ dir : List (List Char), tempName jid i ∉ statusFiles dir jid := by
  have hh := hexHead_of_uuid4 hjid
  refine ⟨statusFilter_final_self hh i,
    statusFilter_of_temp (startsWith_temp_tempName jid i), ?_⟩
  intro dir hmem
  have hf := (List.mem_filter.mp hmem).2
  rw [statusFilter_of_temp (startsWith_temp_tempName jid i)] at hf
  exact Bool.noConfusion hf

theorem claim_c1_witness :
    statusFilter jidW (finalName jidW 0) = true ∧
    statusFilter jidW (tempName jidW 0) = false ∧
    ∀ dir : List (List Char), tempName jidW 0 ∉ statusFiles dir jidW :=
  claim_c1 jidW 0 (by decide)

/-- Claim C6: for every query, the `finished` field is true iff `count` is
strictly positive, and `count` equals the length of the clip list. -/
theorem claim_c6 (dir : List (List Char)) (jid : List Char) :
    ((status dir jid).finished = true ↔ (status dir jid).count > 0) ∧
    (status dir jid).count = (status dir jid).clips.length := by
  constructor
  · simp [status]
  · simp [status]

/-- Claim C7: an empty source reference is rejected with a client error (400)
before any job id is minted or any Runner work is scheduled; a non-empty one
yields `{job_id, status: "processing"}` with the freshly generated id and one
scheduled Runner task. -/
theorem claim_c7 (url fresh : List Char) :
    (url = [] → process_video url fresh = Except.error 400) ∧
    (url ≠ [] → process_video url fresh =
      Except.ok (⟨fresh, "processing".toList⟩, [(url, fresh)])) := by
  constructor
  · intro h
    simp [process_video, h]
  · intro h
    simp [process_video, h]

theorem claim_c7_witness :
    process_video [] jidW = Except.error 400 ∧
    process_video ("http://example/video").toList jidW =
      Except.ok (⟨jidW, "processing".toList⟩, [("http://example/video".toList, jidW)]) :=
  ⟨(claim_c7 [] jidW).1 rfl, (claim_c7 ("http://example/video".toList) jidW).2 (by decide)⟩

/-- Claim C8: when the output store holds no file matching a job id, the
query returns an empty clip list, `count == 0` and `finished == false` — the
same shape as a job that has produced no output yet. -/
theorem claim_c8 (dir : List (List Char)) (jid : List Char)
    (h : statusFiles dir jid = []) :
    (status dir jid).clips = [] ∧ (status dir jid).count = 0 ∧
    (status dir jid).finished = false := by
  simp [status, h]

theorem claim_c8_witness :
    (status ["other.mp4".toList] jidW).clips = [] ∧
    (status ["other.mp4".toList] jidW).count = 0 ∧
    (status ["other.mp4".toList] jidW).finished = false :=
  claim_c8 ["other.mp4".toList] jidW (by decide)

/-- Claim C10 (implicit): the Status Resolver matches by raw string prefix,
so when A is a prefix of a minted job id B, `query(A)`'s clip list includes
every final artifact of B; and with an empty job id the matching set is
exactly every non-temp file of the store. -/
theorem claim_c10 :
    (∀ (A B : List Char) (i : Nat) (dir : List (List Char)),
      (∃ t, B = A ++ t) → uuid4Format B = true → finalName B i ∈ dir →
      ("/outputs/".toList ++ finalName B i) ∈ (status dir A).clips) ∧
    (∀ dir : List (List Char),
      statusFiles dir [] = dir.filter fun f => !(startsWith tempMarker f)) := by
  constructor
  · rintro A B i dir ⟨t, rfl⟩ hB hmem
    have hh := hexHead_of_uuid4 hB
    have h1 : startsWith A (finalName (A ++ t) i) = true := by
      unfold finalName
      rw [List.append_assoc]
      exact startsWith_append A _
    have h2 : startsWith tempMarker (finalName (A ++ t) i) = false :=
      not_temp_of_hexHead hh _
    simp only [status, statusFiles]
    refine List.mem_map.mpr ⟨finalName (A ++ t) i, List.mem_filter.mpr ⟨hmem, ?_⟩, rfl⟩
    simp [statusFilter, h1, h2]
  · intro dir
    unfold statusFiles
    apply List.filter_congr
    intro f _
    simp [statusFilter, startsWith]

theorem claim_c10_witness :
    ("/outputs/".toList ++ finalName jidW 0) ∈
      (status [finalName jidW 0] (("0f8fad5b").toList)).clips ∧
    statusFiles ["a.mp4".toList, "temp_b.mp4".toList] [] =
      ["a.mp4".toList, "temp_b.mp4".toList].filter (fun f => !(startsWith tempMarker f)) :=
  ⟨claim_c10.1 (("0f8fad5b").toList) jidW 0 [finalName jidW 0]
      ⟨"-d9cb-469f-a165-70867728950e".toList, by decide⟩ (by decide) (by simp),
    claim_c10.2 ["a.mp4".toList, "temp_b.mp4".toList]⟩

/-- A fully successful two-segment job environment. -/
def envOkTwo : Env :=
  ⟨Except.ok (), Except.ok [3, 7],
    fun _ => Except.ok [⟨3, "A".toList⟩, ⟨7, "B".toList⟩],
    fun _ => true, fun _ => true, fun _ => false, false⟩

/-- Claim C2: segments captioned in order are rendered in index order, and
the final artifact written for index j carries the caption of segment j; the
alignment for index j needs only the first j iterations to have completed,
so it holds even when a later render sub-step raises. -/
theorem claim_c2 (env : Env) (jid : List Char) (fs0 : FS) (ss : List Nat) (cs : List Seg)
    (j : Nat) (p : Seg) (hjid : uuid4Format jid = true)
    (hd : env.download = Except.ok ()) (hdet : env.detect = Except.ok ss)
    (hcap : env.captionsFor ss = Except.ok cs) (_hord : cs.map Seg.start = ss)
    (hp : cs[j]? = some p) (hpre : ∀ k, k < j → iterOK env k = true)
    (hc : env.cropOk j = true) (hb : env.burnOk j = true) :
    lookupFile (run_job env jid fs0).1.outputs (finalName jid j) =
      some (Clip.captioned p.start 12 p.caption) ∧
    ((run_job env jid fs0).2.filterMap burnIdx).Pairwise (· < ·) := by
  have hh := hexHead_of_uuid4 hjid
  constructor
  · show lookupFile (runJobInner env jid fs0).fs.outputs _ = _
    rw [runJobInner_outputs jid fs0 hd hdet hcap]
    have hL := renderLoop_lookup_final env hh cs 0 ⟨fs0.outputs, true⟩ j p hp
      (fun k hk => by simpa using hpre k hk) (by simpa using hc) (by simpa using hb)
    simpa using hL
  · show ((runJobInner env jid fs0).evs.filterMap burnIdx).Pairwise (· < ·)
    obtain ⟨tail, hev, htail⟩ := runJobInner_evs jid fs0 hd hdet hcap
    rw [hev, List.filterMap_append, htail, List.append_nil]
    exact renderLoop_burn_sorted env jid cs 0 _

theorem claim_c2_witness :
    lookupFile (run_job envOkTwo jidW fsEmpty).1.outputs (finalName jidW 1) =
      some (Clip.captioned 7 12 "B".toList) ∧
    ((run_job envOkTwo jidW fsEmpty).2.filterMap burnIdx).Pairwise (· < ·) :=
  claim_c2 envOkTwo jidW fsEmpty [3, 7] [⟨3, "A".toList⟩, ⟨7, "B".toList⟩] 1
    ⟨7, "B".toList⟩ (by decide) rfl rfl rfl rfl rfl (by decide) rfl rfl

/-- Claim C9: for every processed segment the Runner first crops the source
into a 12-time-unit clip at the segment's start, written to the temp path of
`(job_id, index)`, and only then burns the caption into the final path of
`(job_id, index)` — the crop event immediately precedes the burn event in
the job's trace. -/
theorem claim_c9 (env : Env) (jid : List Char) (fs0 : FS) (ss : List Nat) (cs : List Seg)
    (j : Nat) (p : Seg) (hjid : uuid4Format jid = true)
    (hd : env.download = Except.ok ()) (hdet : env.detect = Except.ok ss)
    (hcap : env.captionsFor ss = Except.ok cs)
    (hp : cs[j]? = some p) (hpre : ∀ k, k < j → iterOK env k = true)
    (hc : env.cropOk j = true) (hb : env.burnOk j = true) :
    ∃ pre post, (run_job env jid fs0).2 =
      pre ++ Ev.crop j p.start 12 (tempName jid j) ::
        Ev.burn j (tempName jid j) (finalName jid j) p.caption :: post := by
  have hh := hexHead_of_uuid4 hjid
  obtain ⟨tail, hev, _⟩ := runJobInner_evs jid fs0 hd hdet hcap
  obtain ⟨pre, post, hloop⟩ := renderLoop_trace env hh cs 0 ⟨fs0.outputs, true⟩ j p hp
    (fun k hk => by simpa using hpre k hk) (by simpa using hc) (by simpa using hb)
  refine ⟨pre, post ++ tail, ?_⟩
  show (runJobInner env jid fs0).evs = _
  rw [hev, hloop]
  simp

theorem claim_c9_witness :
    ∃ pre post, (run_job envOkTwo jidW fsEmpty).2 =
      pre ++ Ev.crop 1 7 12 (tempName jidW 1) ::
        Ev.burn 1 (tempName jidW 1) (finalName jidW 1) ("B").toList :: post :=
  claim_c9 envOkTwo jidW fsEmpty [3, 7] [⟨3, "A".toList⟩, ⟨7, "B".toList⟩] 1
    ⟨7, "B".toList⟩ (by decide) rfl rfl rfl rfl (by decide) rfl rfl

/-- Claim C3: starting from a store with no final artifact for `(jid, i)`, a
run produces that final artifact iff every stage up to and including segment
i's burn succeeded (download, detect, caption succeed, all earlier iterations
complete, crop and burn of i succeed) — so a raising stage stops all later
finals; and any final artifact present after the run is reported by the
Status Resolver's clip list.  The Runner's top-level handler is structural:
`run_job` always returns a state, whatever raised inside. -/
theorem claim_c3 (env : Env) (jid : List Char) (fs0 : FS) (i : Nat)
    (hjid : uuid4Format jid = true)
    (h0 : lookupFile fs0.outputs (finalName jid i) = none) :
    ((lookupFile (run_job env jid fs0).1.outputs (finalName jid i)).isSome = true ↔
      ∃ ss cs, env.download = Except.ok () ∧ env.detect = Except.ok ss ∧
        env.captionsFor ss = Except.ok cs ∧ i < cs.length ∧
        (∀ k, k < i → iterOK env k = true) ∧ env.cropOk i = true ∧
        env.burnOk i = true) ∧
    ((lookupFile (run_job env jid fs0).1.outputs (finalName jid i)).isSome = true →
      ("/outputs/".toList ++ finalName jid i) ∈
        (status ((run_job env jid fs0).1.outputs.map Prod.fst) jid).clips) := by
  have hh := hexHead_of_uuid4 hjid
  constructor
  · constructor
    · intro hsome
      cases hdl : env.download with
      | error e =>
        cases e
        have hrun : (run_job env jid fs0).1 = fs0 := by
          show (runJobInner env jid fs0).fs = fs0
          rw [runJobInner_dl_err jid fs0 hdl]
        rw [hrun, h0] at hsome
        exact absurd hsome (by simp)
      | ok u =>
        cases u
        cases hdt : env.detect with
        | error e =>
          cases e
          have hrun : (run_job env jid fs0).1.outputs = fs0.outputs := by
            show (runJobInner env jid fs0).fs.outputs = fs0.outputs
            rw [runJobInner_detect_err jid fs0 hdl hdt]
          rw [hrun, h0] at hsome
          exact absurd hsome (by simp)
        | ok ss =>
          cases hcp : env.captionsFor ss with
          | error e =>
            cases e
            have hrun : (run_job env jid fs0).1.outputs = fs0.outputs := by
              show (runJobInner env jid fs0).fs.outputs = fs0.outputs
              rw [runJobInner_cap_err jid fs0 hdl hdt hcp]
            rw [hrun, h0] at hsome
            exact absurd hsome (by simp)
          | ok cs =>
            by_cases hcnd : i < cs.length ∧ (∀ k, k < i → iterOK env k = true) ∧
                env.cropOk i = true ∧ env.burnOk i = true
            · exact ⟨ss, cs, rfl, rfl, hcp, hcnd.1, hcnd.2.1, hcnd.2.2.1, hcnd.2.2.2⟩

            · have heq : lookupFile (run_job env jid fs0).1.outputs (finalName jid i) =
                  none := by
                show lookupFile (runJobInner env jid fs0).fs.outputs _ = none
                rw [runJobInner_outputs jid fs0 hdl hdt hcp]
                have hL := renderLoop_lookup_final_none env hh cs 0 ⟨fs0.outputs, true⟩ i
                  (by
                    rintro ⟨a, b, c, d⟩
                    exact hcnd ⟨a, fun k hk => by simpa using b k hk, by simpa using c,
                      by simpa using d⟩)
                simp only [Nat.zero_add] at hL
                rw [hL]
                exact h0
              rw [heq] at hsome
              exact absurd hsome (by simp)
    · rintro ⟨ss, cs, hdl, hdt, hcp, hlen, hpre, hc, hb⟩
      have hp : cs[i]? = some (cs.get ⟨i, hlen⟩) := by
        rw [List.getElem?_eq_getElem hlen]
        rfl
      show (lookupFile (runJobInner env jid fs0).fs.outputs _).isSome = true
      rw [runJobInner_outputs jid fs0 hdl hdt hcp]
      have hL := renderLoop_lookup_final env hh cs 0 ⟨fs0.outputs, true⟩ i _ hp
        (fun k hk => by simpa using hpre k hk) (by simpa using hc) (by simpa using hb)
      simp only [Nat.zero_add] at hL
      rw [hL]
      rfl
  · intro hsome
    obtain ⟨v, hv⟩ := Option.isSome_iff_exists.mp hsome
    have hmem := mem_map_fst_of_lookupFile hv
    simp only [status, statusFiles]
    refine List.mem_map.mpr ⟨finalName jid i,
      List.mem_filter.mpr ⟨hmem, ?_⟩, rfl⟩
    exact statusFilter_final_self hh i

theorem claim_c3_witness :
    ((lookupFile (run_job envOkTwo jidW fsEmpty).1.outputs (finalName jidW 0)).isSome =
        true ↔
      ∃ ss cs, envOkTwo.download = Except.ok () ∧ envOkTwo.detect = Except.ok ss ∧
        envOkTwo.captionsFor ss = Except.ok cs ∧ 0 < cs.length ∧
        (∀ k, k < 0 → iterOK envOkTwo k = true) ∧ envOkTwo.cropOk 0 = true ∧
        envOkTwo.burnOk 0 = true) ∧
    ((lookupFile (run_job envOkTwo jidW fsEmpty).1.outputs (finalName jidW 0)).isSome =
        true →
      ("/outputs/".toList ++ finalName jidW 0) ∈
        (status ((run_job envOkTwo jidW fsEmpty).1.outputs.map Prod.fst) jidW).clips) :=
  claim_c3 envOkTwo jidW fsEmpty 0 (by decide) rfl

/-- A one-segment job whose caption burn raises. -/
def envBurnFail : Env :=
  ⟨Except.ok (), Except.ok [5],
    fun _ => Except.ok [⟨5, "A".toList⟩],
    fun _ => true, fun _ => false, fun _ => false, false⟩

/-- A two-segment job where deleting the first temp artifact raises. -/
def envRemoveRaises : Env :=
  ⟨Except.ok (), Except.ok [3, 7],
    fun _ => Except.ok [⟨3, "A".toList⟩, ⟨7, "B".toList⟩],
    fun _ => true, fun _ => true, fun i => decide (i = 0), false⟩

/-- Counterexample to claim C4 as stated: when the burn of segment 0 raises,
the Runner's invocation terminates (the exception is swallowed) with the temp
artifact `temp_{jid}_0.mp4` still in the output store and the downloaded
source-video copy still present. -/
theorem claim_c4_counterexample :
    lookupFile (run_job envBurnFail jidW fsEmpty).1.outputs (tempName jidW 0) =
      some (Clip.cropped 5 12) ∧
    (run_job envBurnFail jidW fsEmpty).1.sourceExists = true := by
  exact ⟨by decide, by decide⟩

/-- Claim C4 (amended): when the Runner completes every segment without any
stage raising and the source-video deletion does not raise, then — starting
from a store holding no temp artifact of this job — no temp artifact for the
job remains and the source-video copy is deleted.  (On a failing run the
failing segment's temp artifact and the source copy can remain; see the
counterexample.) -/
theorem claim_c4_amended (env : Env) (jid : List Char) (fs0 : FS) (ss : List Nat)
    (cs : List Seg) (hjid : uuid4Format jid = true)
    (hd : env.download = Except.ok ()) (hdet : env.detect = Except.ok ss)
    (hcap : env.captionsFor ss = Except.ok cs)
    (hall : ∀ k, k < cs.length → iterOK env k = true)
    (hsrc : env.removeSourceRaises = false)
    (h0 : ∀ k, lookupFile fs0.outputs (tempName jid k) = none) :
    (∀ k, lookupFile (run_job env jid fs0).1.outputs (tempName jid k) = none) ∧
    (run_job env jid fs0).1.sourceExists = false := by
  have hh := hexHead_of_uuid4 hjid
  obtain ⟨hexc, htemps⟩ := renderLoop_success env hh cs 0 ⟨fs0.outputs, true⟩
    (fun k hk => by simpa using hall k hk) h0
  have hinner : runJobInner env jid fs0 =
      ⟨⟨(renderLoop env jid cs 0 ⟨fs0.outputs, true⟩).fs.outputs, false⟩,
        (renderLoop env jid cs 0 ⟨fs0.outputs, true⟩).evs ++ [Ev.removeSource], false⟩ := by
    simp only [runJobInner, hd, hdet, hcap]
    rw [if_neg (by simp [hexc]), if_pos (by rw [renderLoop_sourceExists]),
      if_neg (by simp [hsrc])]
  constructor
  · intro k
    show lookupFile (runJobInner env jid fs0).fs.outputs _ = none
    rw [hinner]
    exact htemps k
  · show (runJobInner env jid fs0).fs.sourceExists = false
    rw [hinner]

theorem claim_c4_amended_witness :
    (∀ k, lookupFile (run_job envOkTwo jidW fsEmpty).1.outputs (tempName jidW k) = none) ∧
    (run_job envOkTwo jidW fsEmpty).1.sourceExists = false :=
  claim_c4_amended envOkTwo jidW fsEmpty [3, 7] [⟨3, "A".toList⟩, ⟨7, "B".toList⟩]
    (by decide) rfl rfl rfl (by decide) rfl (fun _ => rfl)

/-- Counterexample to claim C5 as stated: in `envRemoveRaises` the deletion
of `temp_{jid}_0.mp4` raises (the path is inaccessible) after segment 0 was
fully rendered; although segment 1 would render fine (its crop and burn both
succeed and the captioning returned two segments), no final artifact for
index 1 is produced and the source-video cleanup step never runs — the
remaining iterations and cleanup steps of the job do not execute. -/
theorem claim_c5_counterexample :
    envRemoveRaises.removeTempRaises 0 = true ∧
    envRemoveRaises.cropOk 1 = true ∧ envRemoveRaises.burnOk 1 = true ∧
    envRemoveRaises.captionsFor [3, 7] =
      Except.ok [⟨3, "A".toList⟩, ⟨7, "B".toList⟩] ∧
    lookupFile (run_job envRemoveRaises jidW fsEmpty).1.outputs (finalName jidW 0) =
      some (Clip.captioned 3 12 "A".toList) ∧
    lookupFile (run_job envRemoveRaises jidW fsEmpty).1.outputs (finalName jidW 1) =
      none ∧
    (run_job envRemoveRaises jidW fsEmpty).1.sourceExists = true :=
  ⟨rfl, rfl, rfl, rfl, by decide, by decide, by decide⟩

/-- Claim C5 (amended): a temp-artifact deletion whose target no longer
exists is skipped by the existence guard and cannot abort the job; but when
`os.remove` itself raises on segment i's temp artifact, the exception aborts
the remaining render iterations and the source cleanup (while still being
swallowed at the Runner's top level): no final artifact for any later index
j is produced and the source-video copy remains. -/
theorem claim_c5_amended (env : Env) (jid : List Char) (fs0 : FS) (ss : List Nat)
    (cs : List Seg) (i j : Nat) (hjid : uuid4Format jid = true)
    (hd : env.download = Except.ok ()) (hdet : env.detect = Except.ok ss)
    (hcap : env.captionsFor ss = Except.ok cs)
    (hi : i < cs.length) (hpre : ∀ k, k < i → iterOK env k = true)
    (hc : env.cropOk i = true) (hb : env.burnOk i = true)
    (hr : env.removeTempRaises i = true) (hij : i < j)
    (h0 : lookupFile fs0.outputs (finalName jid j) = none) :
    lookupFile (run_job env jid fs0).1.outputs (finalName jid j) = none ∧
    (run_job env jid fs0).1.sourceExists = true := by
  have hh := hexHead_of_uuid4 hjid
  have hexc : (renderLoop env jid cs 0 ⟨fs0.outputs, true⟩).exc = true :=
    renderLoop_exc_of_removeRaises env hh cs 0 _ i hi
      (fun k hk => by simpa using hpre k hk) (by simpa using hc) (by simpa using hb)
      (by simpa using hr)
  have hinner : runJobInner env jid fs0 = renderLoop env jid cs 0 ⟨fs0.outputs, true⟩ := by
    simp only [runJobInner, hd, hdet, hcap]
    rw [if_pos hexc]
  constructor
  · show lookupFile (runJobInner env jid fs0).fs.outputs _ = none
    rw [hinner]
    have hcnd : ¬(j < cs.length ∧ (∀ k, k < j → iterOK env (0 + k) = true) ∧
        env.cropOk (0 + j) = true ∧ env.burnOk (0 + j) = true) := by
      rintro ⟨_, h2, _, _⟩
      have hbad := h2 i (by omega)
      simp only [Nat.zero_add] at hbad
      simp [iterOK, hr] at hbad
    have hL := renderLoop_lookup_final_none env hh cs 0 ⟨fs0.outputs, true⟩ j hcnd
    simp only [Nat.zero_add] at hL
    rw [hL]
    exact h0
  · show (runJobInner env jid fs0).fs.sourceExists = true
    rw [hinner, renderLoop_sourceExists]

theorem claim_c5_amended_witness :
    lookupFile (run_job envRemoveRaises jidW fsEmpty).1.outputs (finalName jidW 1) =
      none ∧
    (run_job envRemoveRaises jidW fsEmpty).1.sourceExists = true :=
  claim_c5_amended envRemoveRaises jidW fsEmpty [3, 7]
    [⟨3, "A".toList⟩, ⟨7, "B".toList⟩] 0 1 (by decide) rfl rfl rfl (by decide)
    (by decide) rfl rfl rfl (by decide) rfl

end PeakClip
